import Mathlib

/-!
# labwidgets: size heuristic, click handlers and the control registry

A shallow embedding of `labwidgets.go`.

* Go's `int` is a two's-complement integer of `w` bits (`w` is 32 or 64 on the
  supported targets); it is an `Int` here and every arithmetic result is wrapped
  with `wrapInt w`.
* A `float64` is a sign, a significand and a binary exponent; conversion from
  `int` and multiplication round to nearest, ties to even, at 53 bits.
* A click handler is a state transformer on a `World`; the `World` records the
  sends on the control's signal queue and the invocations of the caller's
  action in program order, and the closures handed to `Synchronize`.
-/

namespace Labwidgets

/-! ## Machine arithmetic -/

/-- Two's-complement wrap of an integer to `w` bits (Go `int` arithmetic). -/
def wrapInt (w : Nat) (x : Int) : Int :=
  (x + 2 ^ (w - 1)) % 2 ^ w - 2 ^ (w - 1)

/-- A finite `float64`: the value `(-1)^neg * m * 2^e`. -/
structure F64 where
  neg : Bool
  m : Nat
  e : Int
deriving DecidableEq

namespace F64

/-- Binary digits of `a`, counted by halving at most `fuel` times. -/
def bitLenAux : Nat → Nat → Nat
  | 0, _ => 0
  | fuel + 1, a => if a = 0 then 0 else bitLenAux fuel (a / 2) + 1

/-- Number of binary digits of `a` (0 for 0); `a` halvings always suffice. -/
def bitLen (a : Nat) : Nat :=
  bitLenAux a a

/-- Round the exact magnitude `a * 2^e` to a 53-bit significand, to nearest,
ties to even.  The exponent range of `float64` is not modelled: the values
formed below are integers of at most 64 bits and their products with `0.8`,
none of which overflows or is subnormal. -/
def round (neg : Bool) (a : Nat) (e : Int) : F64 :=
  if bitLen a ≤ 53 then ⟨neg, a, e⟩
  else
    let s := bitLen a - 53
    let q := a / 2 ^ s
    let r := a % 2 ^ s
    let q1 := if 2 ^ s < 2 * r ∨ (2 * r = 2 ^ s ∧ q % 2 = 1) then q + 1 else q
    ⟨neg, q1, e + s⟩

/-- Go `float64(n)` for an `int` value `n`. -/
def ofInt (n : Int) : F64 :=
  round (decide (n < 0)) n.natAbs 0

/-- Go `x * y` on `float64`: the exact product, rounded once. -/
def mul (x y : F64) : F64 :=
  round (x.neg != y.neg) (x.m * y.m) (x.e + y.e)

/-- Go `int(x)` for a `float64` whose integer part fits in `int`: the fraction
is discarded (truncation toward zero). -/
def toInt (x : F64) : Int :=
  let mag : Nat := if 0 ≤ x.e then x.m * 2 ^ x.e.toNat else x.m / 2 ^ (-x.e).toNat
  if x.neg then -(mag : Int) else (mag : Int)

/-- The `float64` nearest to the decimal constant `0.8`:
`0x3FE999999999999A = 7205759403792794 * 2^-53`. -/
def c08 : F64 := ⟨false, 7205759403792794, -53⟩

end F64

/-! ## Descriptors -/

/-- The toolkit's `Font` descriptor. -/
structure Font where
  Family : String
  PointSize : Int
  Bold : Bool
deriving DecidableEq

/-- The toolkit's `Size` descriptor; `Size{}` is `⟨0, 0⟩`. -/
structure Size where
  Width : Int
  Height : Int
deriving DecidableEq

def TitleFont : Font := { Family := "Tahoma", PointSize := 12, Bold := true }

def ContentFont : Font := { Family := "Tahoma", PointSize := 10, Bold := false }

def ButtonFont : Font := { Family := "Tahoma", PointSize := 10, Bold := false }

def LabelFont : Font := { Family := "Tahoma", PointSize := 10, Bold := false }

/-- Size heuristic `fontToSize(font, length)`. -/
def fontToSize (w : Nat) (font : Font) (length : Int) : Size :=
  if length = 0 then
    { Width := 0, Height := 0 }
  else
    let width := F64.toInt (F64.mul (F64.ofInt (wrapInt w (font.PointSize * length))) F64.c08)
    let height := wrapInt w (font.PointSize * 3)
    { Width := width, Height := height }

/-- Go `len(s)`: the number of bytes of the string. -/
def strLen (s : String) : Int :=
  (s.utf8ByteSize : Int)

/-- Alignment constants of the toolkit that occur in the source. -/
inductive Alignment2D where
  | AlignHVDefault
  | AlignHNearVCenter
  | AlignHFarVCenter
deriving DecidableEq

/-- The toolkit's `Label` descriptor (the `AssignTo` pointer is left out). -/
structure Label where
  Alignment : Alignment2D
  Text : String
  Font : Font
  MinSize : Size
  MaxSize : Size
deriving DecidableEq

/-- The toolkit's `LineEdit` descriptor (the `AssignTo` pointer is left out). -/
structure LineEdit where
  Text : String
  Font : Font
  MinSize : Size
  MaxSize : Size
  Enabled : Bool
deriving DecidableEq

/-- The toolkit's `NumberEdit` descriptor (the `AssignTo` pointer is left out). -/
structure NumberEdit where
  Suffix : String
  Decimals : Int
  MinSize : Size
  MaxSize : Size
  Font : Font
  Enabled : Bool
deriving DecidableEq

def StaticLabel (w : Nat) (label : String) : Label :=
  let labelSize := fontToSize w LabelFont (strLen label)
  { Alignment := Alignment2D.AlignHFarVCenter
    Text := label
    Font := LabelFont
    MinSize := labelSize
    MaxSize := labelSize }

def _LineEdit (w : Nat) (initialValue : String) (length : Int) (readonly : Bool) : LineEdit :=
  let editSize := fontToSize w ContentFont length
  { Text := initialValue
    Font := ContentFont
    MinSize := editSize
    MaxSize := editSize
    Enabled := readonly }

def _NumberEdit (w : Nat) (digits decimals : Int) (unit : String) (readonly : Bool) : NumberEdit :=
  let numberSize := fontToSize w ContentFont
    (wrapInt w (wrapInt w (wrapInt w (wrapInt w (digits + decimals) + strLen unit) + 1) + 1))
  { Suffix := " " ++ unit
    Decimals := decimals
    MinSize := numberSize
    MaxSize := numberSize
    Font := ContentFont
    Enabled := readonly }

/-! ## Click handlers -/

/-- An effect of a click handler on its control, as seen from outside. -/
inductive Event where
  /-- The statement `enabled <- v` on the control's signal queue. -/
  | send (v : Bool)
  /-- The button's `action` is invoked, with its argument if it takes one. -/
  | call (arg : Option Bool)
deriving DecidableEq

/-- A closure handed to `Synchronize`, to be run later on the UI thread. -/
inductive SyncOp where
  /-- The closure `*s.state = !*s.state` of `ToggleButton`. -/
  | flipState
  /-- The closure `s.label.SetText(t)` of `LabeledToggleButton`. -/
  | setLabelText (t : String)
  /-- The closure `s.edit.SetText(t)` of `StringGetter`. -/
  | setEditText (t : String)
  /-- The closure `s.edit.SetValue(v)` of `FloatGetter`. -/
  | setEditValue (v : F64)
deriving DecidableEq

/-- A run-time panic. -/
inductive Panic where
  /-- A call through a nil func value. -/
  | nilFunc
deriving DecidableEq

/-- What a click handler reads and writes.  `υ` is whatever the caller's own
closures work on.  `trace` lists the sends on the signal queue of the button
(`enabled`, or the queue made for it when `enabled` is nil) and the invocations
of its action, oldest first; within one click the `go` statement orders the
send before it ahead of everything the started goroutine does. -/
structure World (υ : Type) where
  user : υ
  trace : List Event
  /-- The cell `*s.state` of a `ToggleButton`: the caller's `state`, or the
  button's own `_state` when `state` is nil. -/
  state : Bool
  /-- Text shown by the label of a `LabeledToggleButton`. -/
  labelText : String
  /-- Text of the line edit of a `StringSetter` or `StringGetter`. -/
  editText : String
  /-- Value of the number edit of a `FloatGetter`; `s.Value` of a `FloatSetter`. -/
  editValue : F64
  /-- Closures passed to `Synchronize` and not yet run, oldest first. -/
  pending : List SyncOp

namespace World

variable {υ : Type}

/-- Append an effect to the trace. -/
def emit (world : World υ) (ev : Event) : World υ :=
  { world with trace := world.trace ++ [ev] }

/-- The toolkit's `Synchronize(f)`: queue `f` for the UI thread and return. -/
def synchronize (world : World υ) (op : SyncOp) : World υ :=
  { world with pending := world.pending ++ [op] }

/-- The UI thread runs one synchronized closure. -/
def runOp (world : World υ) : SyncOp → World υ
  | SyncOp.flipState => { world with state := !world.state }
  | SyncOp.setLabelText t => { world with labelText := t }
  | SyncOp.setEditText t => { world with editText := t }
  | SyncOp.setEditValue v => { world with editValue := v }

/-- The UI thread runs every synchronized closure that is waiting, in order. -/
def runSync (world : World υ) : World υ :=
  world.pending.foldl runOp { world with pending := [] }

end World

/-- A Go `func()` value: nil, or a closure. -/
abbrev Func (υ : Type) := Option (World υ → Except Panic (World υ))

/-- A Go `func(bool) bool` value: nil, or a closure. -/
abbrev BoolFunc (υ : Type) := Option (Bool → World υ → Except Panic (Bool × World υ))

/-- Calling a `func(bool) bool` value; a nil one panics. -/
def BoolFunc.call {υ : Type} (f : BoolFunc υ) (b : Bool) (world : World υ) :
    Except Panic (Bool × World υ) :=
  match f with
  | none => Except.error Panic.nilFunc
  | some g => g b world

/-- A caller's `func()` that returns and touches nothing of the widget. -/
def userFunc {υ : Type} (f : υ → υ) : Func υ :=
  some (fun world => Except.ok { world with user := f world.user })

/-- A caller's `func(bool) bool` that returns and touches nothing of the widget. -/
def userBoolFunc {υ : Type} (f : Bool → υ → Bool × υ) : BoolFunc υ :=
  some (fun b world => Except.ok ((f b world.user).1, { world with user := (f b world.user).2 }))

/-- The toolkit's `PushButton` descriptor (the `AssignTo` pointer is left out). -/
structure PushButton (υ : Type) where
  Text : String
  Font : Font
  MaxSize : Size
  MinSize : Size
  OnClicked : World υ → Except Panic (World υ)

def MomentaryButton {υ : Type} (w : Nat) (btnText : String) (action : Func υ) : PushButton υ :=
  let btnSize := fontToSize w ButtonFont (wrapInt w (strLen btnText + 4))
  { Text := btnText
    Font := ButtonFont
    MaxSize := btnSize
    MinSize := btnSize
    OnClicked := fun world =>
      match action with
      | none => Except.ok world
      | some f => do
          let world := world.emit (Event.send false)
          let world ← f (world.emit (Event.call none))
          Except.ok (world.emit (Event.send true)) }

def ToggleButton {υ : Type} (w : Nat) (btnText : String) (action : BoolFunc υ) : PushButton υ :=
  let btnSize := fontToSize w ButtonFont (wrapInt w (strLen btnText + 4))
  { Text := btnText
    Font := ButtonFont
    MaxSize := btnSize
    MinSize := btnSize
    OnClicked := fun world =>
      match action with
      | none => Except.ok world
      | some f => do
          let world := world.emit (Event.send false)
          let arg := !world.state
          let (result, world) ← f arg (world.emit (Event.call (some arg)))
          let world := if result then world.synchronize SyncOp.flipState else world
          Except.ok (world.emit (Event.send true)) }

/-- A child of a composite. -/
inductive Widget (υ : Type) where
  | pushButton (b : PushButton υ)
  | label (l : Label)
  | lineEdit (e : LineEdit)
  | numberEdit (e : NumberEdit)
  | hSpacer

/-- The toolkit's `Composite` descriptor: its children, in order (the layout,
the data binder and the `AssignTo` pointer are left out). -/
structure Composite (υ : Type) where
  Children : List (Widget υ)

namespace F64

/-- The integer `x / 2^e0`, for `e0 ≤ x.e`. -/
def scaled (x : F64) (e0 : Int) : Int :=
  (if x.neg then -1 else 1) * ((x.m : Int) * 2 ^ (x.e - e0).toNat)

/-- Go `math.Max` on finite values. -/
def max (x y : F64) : F64 :=
  if x.scaled (min x.e y.e) < y.scaled (min x.e y.e) then y else x

end F64

/-- What `LabeledToggleButton` makes: the struct `s` its closures capture (the
label pointer left out) and the composite it returns. -/
structure LabeledToggle (υ : Type) where
  State : Bool
  StateString : String
  StateStrings : Bool → String
  composite : Composite υ

/-- The factory `LabeledToggleButton`.  A Go `map[bool]string` read at a missing
key gives `""`, so the map is a total function here. -/
def LabeledToggleButton {υ : Type} (w : Nat) (btnText : String) (stateStrings : Bool → String)
    (initialState : Bool) (action : BoolFunc υ) : LabeledToggle υ :=
  let labelSize := fontToSize w LabelFont
    (F64.toInt (F64.max (F64.ofInt (strLen (stateStrings true)))
      (F64.ofInt (strLen (stateStrings false)))))
  { State := initialState
    StateString := stateStrings initialState
    StateStrings := stateStrings
    composite :=
      { Children :=
          [ Widget.pushButton (ToggleButton w btnText (some (fun b world => do
              let (result, world) ← action.call b world
              let world :=
                if result then world.synchronize (SyncOp.setLabelText (stateStrings b))
                else world
              Except.ok (result, world)))),
            Widget.label
              { Alignment := Alignment2D.AlignHVDefault
                Text := stateStrings initialState
                Font := LabelFont
                MaxSize := labelSize
                MinSize := labelSize },
            Widget.hSpacer ] } }

/-- A Go `func(string)` value. -/
abbrev StringSink (υ : Type) := Option (String → World υ → Except Panic (World υ))

/-- A Go `func() string` value. -/
abbrev StringSource (υ : Type) := Option (World υ → Except Panic (String × World υ))

/-- A Go `func(float64)` value. -/
abbrev FloatSink (υ : Type) := Option (F64 → World υ → Except Panic (World υ))

/-- A Go `func() float64` value. -/
abbrev FloatSource (υ : Type) := Option (World υ → Except Panic (F64 × World υ))

def StringSetter {υ : Type} (w : Nat) (btnText : String) (initialvalue : String) (length : Int)
    (action : StringSink υ) : Composite υ :=
  { Children :=
      [ Widget.lineEdit (_LineEdit w initialvalue length true),
        Widget.pushButton (MomentaryButton w btnText (some (fun world =>
          match action with
          | some g => g world.editText world
          | none => Except.ok world))),
        Widget.hSpacer ] }

def StringGetter {υ : Type} (w : Nat) (btnText : String) (length : Int)
    (action : StringSource υ) : Composite υ :=
  { Children :=
      [ Widget.pushButton (MomentaryButton w btnText (some (fun world =>
          match action with
          | none => Except.ok world
          | some g => do
              let (str, world) ← g world
              Except.ok (world.synchronize (SyncOp.setEditText str))))),
        Widget.lineEdit (_LineEdit w "" length false),
        Widget.hSpacer ] }

/-- The factory `FloatSetter`; `initialvalue`, `min` and `max` go to the data
binder, which is the toolkit's and is left out. -/
def FloatSetter {υ : Type} (w : Nat) (btnText : String) (unit : String) (digits decimals : Int)
    (action : FloatSink υ) : Composite υ :=
  { Children :=
      [ Widget.numberEdit (_NumberEdit w digits decimals unit true),
        Widget.pushButton (MomentaryButton w btnText (some (fun world =>
          match action with
          | none => Except.ok world
          | some g => g world.editValue world))),
        Widget.hSpacer ] }

def FloatGetter {υ : Type} (w : Nat) (btnText : String) (unit : String) (digits decimals : Int)
    (action : FloatSource υ) : Composite υ :=
  { Children :=
      [ Widget.pushButton (MomentaryButton w btnText (some (fun world =>
          match action with
          | none => Except.ok world
          | some g => do
              let (val, world) ← g world
              Except.ok (world.synchronize (SyncOp.setEditValue val))))),
        Widget.numberEdit (_NumberEdit w digits decimals unit false),
        Widget.hSpacer ] }

namespace Composite

variable {υ : Type}

/-- The push button among the children, if there is one. -/
def button : List (Widget υ) → Option (PushButton υ)
  | [] => none
  | Widget.pushButton b :: _ => some b
  | _ :: rest => button rest

/-- The text the label among the children is built with (`""` without one). -/
def labelText : List (Widget υ) → String
  | [] => ""
  | Widget.label l :: _ => l.Text
  | _ :: rest => labelText rest

/-- The text the line edit among the children is built with (`""` without one). -/
def editText : List (Widget υ) → String
  | [] => ""
  | Widget.lineEdit e :: _ => e.Text
  | _ :: rest => editText rest

/-- The user clicks the push button of the composite. -/
def click (c : Composite υ) (world : World υ) : Except Panic (World υ) :=
  match button c.Children with
  | some b => b.OnClicked world
  | none => Except.ok world

end Composite

namespace LabeledToggle

variable {υ : Type}

/-- The world once the toolkit has built the widgets from their descriptors:
the toggle cell is `s.State`, the label shows the text of its descriptor,
nothing has been sent and no synchronized closure is waiting. -/
def start (t : LabeledToggle υ) (u : υ) : World υ :=
  { user := u
    trace := []
    state := t.State
    labelText := Composite.labelText t.composite.Children
    editText := Composite.editText t.composite.Children
    editValue := F64.ofInt 0
    pending := [] }

/-- One click, then the UI thread runs the synchronized closures of that click. -/
def clickSync (t : LabeledToggle υ) (world : World υ) : Except Panic (World υ) :=
  (t.composite.click world).map World.runSync

/-- `n` clicks in a row, each with its synchronized closures run before the next. -/
def clicks (t : LabeledToggle υ) : Nat → World υ → Except Panic (World υ)
  | 0, world => Except.ok world
  | n + 1, world => do
      let world ← clicks t n world
      clickSync t world

end LabeledToggle

/-! ## The control registry -/

/-- A Go `chan bool` together with what its listener has done.  `buf` holds the
values sent and not yet received, oldest first; `recvd` the values the listener
goroutine (`for enabled := range enabled`) has received and applied to its
control with `SetEnabled`, oldest first. -/
structure Chan where
  cap : Nat
  buf : List Bool
  recvd : List Bool
deriving DecidableEq

namespace Chan

/-- Go `make(chan bool, cap)`. -/
def make (cap : Nat) : Chan :=
  { cap := cap, buf := [], recvd := [] }

/-- The value `v` joins the buffer, behind what is there. -/
def push (v : Bool) (ch : Chan) : Chan :=
  { ch with buf := ch.buf ++ [v] }

/-- Go `ch <- v`; `none` when the buffer is full and the sender blocks. -/
def send (v : Bool) (ch : Chan) : Option Chan :=
  if ch.buf.length < ch.cap then some (ch.push v) else none

/-- The listener receives every buffered value and applies it to its control. -/
def drain (ch : Chan) : Chan :=
  { ch with buf := [], recvd := ch.recvd ++ ch.buf }

end Chan

/-- The registry: a Go `map[string]chan bool` as an association list; the
order of the entries is the order in which `range` visits them. -/
structure ControlDisablers where
  chns : List (String × Chan)
deriving DecidableEq

/-- Go `make(map[string]chan bool, hint)`: an empty map. -/
def makeMap (_hint : Nat) : List (String × Chan) :=
  []

/-- Go `m[name] = ch`. -/
def mapStore (name : String) (ch : Chan) : List (String × Chan) → List (String × Chan)
  | [] => [(name, ch)]
  | (k, old) :: rest => if k = name then (k, ch) :: rest else (k, old) :: mapStore name ch rest

def NewDisablers (btn : List String) : ControlDisablers :=
  let c : ControlDisablers := { chns := makeMap btn.length }
  (c.chns.map Prod.fst).foldl
    (fun c name => { c with chns := mapStore name (Chan.make 1) c.chns }) c

/-- The loop `for _, chn := range chns { chn <- v }`; `none` when a send blocks. -/
def sendEach (v : Bool) : List (String × Chan) → Option (List (String × Chan))
  | [] => some []
  | (k, chn) :: rest => do
      let chn ← chn.send v
      let rest ← sendEach v rest
      some ((k, chn) :: rest)

namespace ControlDisablers

def EnableAll (c : ControlDisablers) : Option ControlDisablers :=
  (sendEach true c.chns).map (fun chns => { chns := chns })

def DisableAll (c : ControlDisablers) : Option ControlDisablers :=
  (sendEach false c.chns).map (fun chns => { chns := chns })

def Enable (c : ControlDisablers) (name : String) : Option ControlDisablers :=
  match c.chns.lookup name with
  | some chn => (chn.send true).map (fun chn => { chns := mapStore name chn c.chns })
  | none => some c

def Disable (c : ControlDisablers) (name : String) : Option ControlDisablers :=
  match c.chns.lookup name with
  | some chn => (chn.send false).map (fun chn => { chns := mapStore name chn c.chns })
  | none => some c

/-- Every listener empties its queue. -/
def drainAll (c : ControlDisablers) : ControlDisablers :=
  { chns := c.chns.map (fun e => (e.1, e.2.drain)) }

end ControlDisablers

/-! ## The size heuristic -/

namespace F64

theorem bitLenAux_zero (fuel : Nat) : bitLenAux fuel 0 = 0 := by
  cases fuel <;> simp [bitLenAux]

theorem bitLenAux_spec : ∀ (fuel a : Nat), a ≤ fuel →
    a < 2 ^ bitLenAux fuel a ∧ (a ≠ 0 → 2 ^ bitLenAux fuel a ≤ 2 * a)
  | 0, a, h => by
      have h0 : a = 0 := by omega
      subst h0
      simp [bitLenAux]
  | fuel + 1, a, h => by
      by_cases ha : a = 0
      · subst ha
        simp [bitLenAux]
      · have ih := bitLenAux_spec fuel (a / 2) (by omega)
        simp only [bitLenAux, if_neg ha, pow_succ]
        by_cases h2 : a / 2 = 0
        · have h1 : a = 1 := by omega
          subst h1
          simp [bitLenAux_zero]
        · have ih2 := ih.2 h2
          have ih1 := ih.1
          constructor
          · omega
          · intro _
            omega

theorem bitLen_spec (a : Nat) : a < 2 ^ bitLen a ∧ (a ≠ 0 → 2 ^ bitLen a ≤ 2 * a) :=
  bitLenAux_spec a a (Nat.le_refl a)

theorem bitLen_le_of_lt (a k : Nat) (h : a < 2 ^ k) : bitLen a ≤ k := by
  by_cases ha : a = 0
  · subst ha
    simp [bitLen, bitLenAux_zero]
  · by_contra hc
    have h1 := (bitLen_spec a).2 ha
    have h2 : 2 ^ (k + 1) ≤ 2 ^ bitLen a := Nat.pow_le_pow_right (by decide) (by omega)
    rw [pow_succ] at h2
    omega

theorem round_exact (neg : Bool) (a : Nat) (e : Int) (h : a < 2 ^ 53) :
    round neg a e = ⟨neg, a, e⟩ := by
  unfold round
  rw [if_pos (bitLen_le_of_lt a 53 h)]

theorem toInt_neg_exp (q t : Nat) (ht : 0 < t) :
    toInt ⟨false, q, -((t : Nat) : Int)⟩ = ((q / 2 ^ t : Nat) : Int) := by
  have hneg : ¬ (0 : Int) ≤ -((t : Nat) : Int) := by omega
  simp [toInt, hneg]

theorem round_div_core (n A B : Nat) (hn : n < 1688849860263936)
    (hAB : B * A = 9007199254740992) (hA51 : A ≤ 2251799813685248) (hApos : 0 < A) :
    (if A < 2 * (n * 7205759403792794 % A) ∨
        (2 * (n * 7205759403792794 % A) = A ∧ n * 7205759403792794 / A % 2 = 1)
      then n * 7205759403792794 / A + 1 else n * 7205759403792794 / A) / B = 4 * n / 5 := by
  have hdm := Nat.div_add_mod (n * 7205759403792794) A
  have hr := Nat.mod_lt (n * 7205759403792794) hApos
  have hlo : 4 * n / 5 * B ≤ n * 7205759403792794 / A := by
    rw [Nat.le_div_iff_mul_le hApos, Nat.mul_assoc, hAB]
    omega
  have hhi : n * 7205759403792794 / A < (4 * n / 5 + 1) * B := by
    rw [Nat.div_lt_iff_lt_mul hApos, Nat.mul_assoc, hAB]
    omega
  apply Nat.div_eq_of_lt_le
  · split <;> omega
  · split
    · rename_i hc
      have h2r : A ≤ 2 * (n * 7205759403792794 % A) := by
        rcases hc with h | h
        · omega
        · omega
      by_contra hcon
      have h3 : (4 * n / 5 + 1) * B ≤ n * 7205759403792794 / A + 1 := by
        simpa [Nat.succ_eq_add_one] using hcon
      have h4 := Nat.mul_le_mul_right A h3
      have h5 : (n * 7205759403792794 / A + 1) * A = A * (n * 7205759403792794 / A) + A := by ring
      rw [Nat.mul_assoc, hAB, h5] at h4
      omega
    · exact hhi

theorem toInt_round_mul_c08 (n : Nat) (hn : n < 3 * 2 ^ 49) :
    toInt (round false (n * 7205759403792794) (-53)) = ((4 * n / 5 : Nat) : Int) := by
  have hn1 : n < 1688849860263936 := by norm_num at hn; exact hn
  by_cases hb : bitLen (n * 7205759403792794) ≤ 53
  · have hr : round false (n * 7205759403792794) (-53) = ⟨false, n * 7205759403792794, -53⟩ := by
      unfold round
      rw [if_pos hb]
    rw [hr]
    simp only [toInt]
    norm_num
    norm_cast
    omega
  · have hs := bitLen_spec (n * 7205759403792794)
    have ha0 : n * 7205759403792794 ≠ 0 := by
      intro h0
      rw [h0] at hb
      exact hb (by simp [bitLen, bitLenAux_zero])
    have hlow := hs.2 ha0
    obtain ⟨s, hsdef⟩ : ∃ s, bitLen (n * 7205759403792794) = s + 54 :=
      ⟨bitLen (n * 7205759403792794) - 54, by omega⟩
    -- the shift is s + 1, at most 51
    have hs51 : s + 1 ≤ 51 := by
      by_contra hc
      have h2 : 2 ^ 105 ≤ 2 ^ bitLen (n * 7205759403792794) :=
        Nat.pow_le_pow_right (by decide) (by omega)
      norm_num at h2
      omega
    have hsh : bitLen (n * 7205759403792794) - 53 = s + 1 := by omega
    have hexp : (-53 + ((s + 1 : Nat) : Int)) = -((52 - s : Nat) : Int) := by omega
    have hAB : 2 ^ (52 - s) * 2 ^ (s + 1) = 9007199254740992 := by
      rw [← pow_add]
      have h53 : 52 - s + (s + 1) = 53 := by omega
      rw [h53]
      norm_num
    have hA51 : 2 ^ (s + 1) ≤ 2251799813685248 := by
      have h2 : 2 ^ (s + 1) ≤ 2 ^ 51 := Nat.pow_le_pow_right (by decide) hs51
      norm_num at h2
      exact h2
    have hApos : 0 < 2 ^ (s + 1) := Nat.two_pow_pos (s + 1)
    unfold round
    rw [if_neg hb]
    simp only [hsh, hexp]
    rw [toInt_neg_exp _ _ (by omega)]
    congr 1
    exact round_div_core n (2 ^ (s + 1)) (2 ^ (52 - s)) hn1 hAB hA51 hApos

end F64

theorem wrapInt_of_fits (w : Nat) (x : Int) (h0 : 1 ≤ x) (h1 : x < 2 ^ (w - 1)) :
    wrapInt w x = x := by
  have hw : 2 ≤ w := by
    by_contra hc
    have hw1 : w - 1 = 0 := by omega
    rw [hw1] at h1
    norm_num at h1
    omega
  have h2 : (2 : Int) ^ w = 2 * 2 ^ (w - 1) := by
    have hw2 : w = (w - 1) + 1 := by omega
    conv_lhs => rw [hw2]
    rw [pow_succ]
    ring
  unfold wrapInt
  rw [h2, Int.emod_eq_of_lt (by omega) (by omega)]
  omega

theorem ofInt_mul_c08 (n : Nat) (hn : n < 3 * 2 ^ 49) :
    F64.toInt (F64.mul (F64.ofInt (n : Int)) F64.c08) = ((4 * n / 5 : Nat) : Int) := by
  have h53 : n < 2 ^ 53 := by
    norm_num at hn ⊢
    omega
  have hneg : decide ((n : Int) < 0) = false := by
    simp
  unfold F64.ofInt
  rw [hneg, Int.natAbs_ofNat, F64.round_exact false n 0 h53]
  simp only [F64.mul, F64.c08]
  simpa using F64.toInt_round_mul_c08 n hn

/-- C1, amended. For a font of point size `P ≥ 1` and a length `L ≥ 1` with
`P*L < 3*2^49`, and with `P*L` and `3*P` below `2^(w-1)` for the width `w` of
`int`, `fontToSize(font, L)` has width `floor(4*P*L/5)` and height `3*P`. -/
theorem fontToSize_exact (w : Nat) (font : Font) (L : Int)
    (hP : 1 ≤ font.PointSize) (hL : 1 ≤ L)
    (hfit : font.PointSize * L < 2 ^ (w - 1))
    (hprec : font.PointSize * L < 3 * 2 ^ 49)
    (hH : 3 * font.PointSize < 2 ^ (w - 1)) :
    fontToSize w font L =
      { Width := 4 * font.PointSize * L / 5, Height := 3 * font.PointSize } := by
  have hpos : 1 ≤ font.PointSize * L := by nlinarith
  obtain ⟨n, hn⟩ : ∃ n : Nat, font.PointSize * L = (n : Int) :=
    ⟨(font.PointSize * L).toNat, by omega⟩
  have hn3 : n < 3 * 2 ^ 49 := by
    rw [hn] at hprec
    exact_mod_cast hprec
  have hL0 : L ≠ 0 := by omega
  unfold fontToSize
  rw [if_neg hL0]
  have hw1 := wrapInt_of_fits w (font.PointSize * L) hpos hfit
  have hw2 := wrapInt_of_fits w (font.PointSize * 3) (by omega) (by omega)
  simp only [hw1, hw2]
  rw [hn, ofInt_mul_c08 n hn3]
  have hwd : 4 * font.PointSize * L / 5 = ((4 * n / 5 : Nat) : Int) := by
    rw [Int.mul_assoc, hn]
    norm_cast
  rw [hwd]
  congr 1
  omega

/-- The content font (10 pt) at length 7 on a 64-bit `int`: 56 by 30. -/
theorem fontToSize_exact_witness :
    fontToSize 64 ContentFont 7 = { Width := 56, Height := 30 } :=
  fontToSize_exact 64 ContentFont 7 (by decide) (by decide) (by decide) (by decide) (by decide)

set_option maxRecDepth 20000 in
/-- C1 fails at `P = 2^53`, `L = 1` on a 64-bit `int`: `float64(2^53)` is exact,
the constant `0.8` is the double `7205759403792794 * 2^-53`, their product is
the integer `7205759403792794`, and `floor(4 * 2^53 / 5)` is one less. -/
theorem fontToSize_inexact :
    (fontToSize 64 { Family := "Tahoma", PointSize := 9007199254740992, Bold := false } 1).Width
        = 7205759403792794
      ∧ (4 * 9007199254740992 * 1 / 5 : Int) = 7205759403792793
      ∧ (fontToSize 64 { Family := "Tahoma", PointSize := 9007199254740992, Bold := false } 1).Width
        ≠ 4 * 9007199254740992 * 1 / 5 := by
  decide

set_option maxRecDepth 20000 in
/-- The bound `3*2^49` is the least product at which the width is off: there the
exact product ends in `.875`, a tie between two doubles, and rounds up. -/
theorem fontToSize_bound_tight :
    (fontToSize 64 { Family := "Tahoma", PointSize := 1688849860263936, Bold := false } 1).Width
        = 1351079888211149
      ∧ (4 * 1688849860263936 * 1 / 5 : Int) = 1351079888211148 := by
  decide

set_option maxRecDepth 20000 in
/-- With the content font itself (10 pt) the product `10 * 2^62` wraps to `-2^63`
on a 64-bit `int`, and the width comes out negative. -/
theorem fontToSize_overflow :
    fontToSize 64 ContentFont 4611686018427387904
      = { Width := -7378697629483821056, Height := 30 } := by
  decide

/-! ## Descriptors and sizes -/

theorem wrapInt_add_left (w : Nat) (a b : Int) :
    wrapInt w (wrapInt w a + b) = wrapInt w (a + b) := by
  unfold wrapInt
  have h : (a + 2 ^ (w - 1)) % 2 ^ w - 2 ^ (w - 1) + b + 2 ^ (w - 1)
      = (a + 2 ^ (w - 1)) % 2 ^ w + b := by ring
  rw [h, Int.emod_add_emod]
  have h2 : a + 2 ^ (w - 1) + b = a + b + 2 ^ (w - 1) := by ring
  rw [h2]

/-- C2. For every font, `fontToSize(font, 0)` is the zero size; so
`StaticLabel("")` and every line edit built with length 0 have `MinSize` and
`MaxSize` equal to the zero size. -/
theorem fontToSize_zero_length (w : Nat) (font : Font) (initialValue : String) (readonly : Bool) :
    fontToSize w font 0 = { Width := 0, Height := 0 }
      ∧ (StaticLabel w "").MinSize = { Width := 0, Height := 0 }
      ∧ (StaticLabel w "").MaxSize = { Width := 0, Height := 0 }
      ∧ (_LineEdit w initialValue 0 readonly).MinSize = { Width := 0, Height := 0 }
      ∧ (_LineEdit w initialValue 0 readonly).MaxSize = { Width := 0, Height := 0 } := by
  have h0 : ∀ f : Font, fontToSize w f 0 = { Width := 0, Height := 0 } := by
    intro f
    simp [fontToSize]
  have hlen : strLen "" = 0 := by decide
  refine ⟨h0 font, ?_, ?_, ?_, ?_⟩
  · simp only [StaticLabel, hlen, h0]
  · simp only [StaticLabel, hlen, h0]
  · simp only [_LineEdit, h0]
  · simp only [_LineEdit, h0]

/-- C9. `StaticLabel`, `_LineEdit`, `_NumberEdit`, `MomentaryButton` and
`ToggleButton` return descriptors whose `MinSize` equals `MaxSize`, and that
size is `fontToSize` of the fixed font at `len(text)`, at the given length, at
`digits+decimals+len(unit)+2`, and at `len(btnText)+4` for both buttons (the
sums taken in Go `int` arithmetic). -/
theorem descriptor_sizes {υ : Type} (w : Nat) (label initialValue unit btnText : String)
    (length digits decimals : Int) (readonly : Bool) (action : Func υ) (toggle : BoolFunc υ) :
    ((StaticLabel w label).MinSize = (StaticLabel w label).MaxSize
        ∧ (StaticLabel w label).MinSize = fontToSize w LabelFont (strLen label))
      ∧ ((_LineEdit w initialValue length readonly).MinSize
            = (_LineEdit w initialValue length readonly).MaxSize
        ∧ (_LineEdit w initialValue length readonly).MinSize = fontToSize w ContentFont length)
      ∧ ((_NumberEdit w digits decimals unit readonly).MinSize
            = (_NumberEdit w digits decimals unit readonly).MaxSize
        ∧ (_NumberEdit w digits decimals unit readonly).MinSize
            = fontToSize w ContentFont (wrapInt w (digits + decimals + strLen unit + 2)))
      ∧ ((MomentaryButton w btnText action).MinSize = (MomentaryButton w btnText action).MaxSize
        ∧ (MomentaryButton w btnText action).MinSize
            = fontToSize w ButtonFont (wrapInt w (strLen btnText + 4)))
      ∧ ((ToggleButton w btnText toggle).MinSize = (ToggleButton w btnText toggle).MaxSize
        ∧ (ToggleButton w btnText toggle).MinSize
            = fontToSize w ButtonFont (wrapInt w (strLen btnText + 4))) := by
  have hsum : wrapInt w (wrapInt w (wrapInt w (wrapInt w (digits + decimals) + strLen unit) + 1) + 1)
      = wrapInt w (digits + decimals + strLen unit + 2) := by
    rw [wrapInt_add_left, wrapInt_add_left, Int.add_assoc (wrapInt w _) 1 1, wrapInt_add_left]
    congr 1
  refine ⟨⟨rfl, rfl⟩, ⟨rfl, rfl⟩, ⟨rfl, ?_⟩, ⟨rfl, rfl⟩, ⟨rfl, rfl⟩⟩
  simp only [_NumberEdit, hsum]

/-! ## Click handlers -/

/-- C4. One click on a `MomentaryButton` with a non-nil action that returns
makes, in this order and nothing else: one send of `false` on the signal queue,
one invocation of the action, one send of `true`. -/
theorem MomentaryButton_click_trace {υ : Type} (w : Nat) (btnText : String) (f : υ → υ)
    (world : World υ) :
    (MomentaryButton w btnText (userFunc f)).OnClicked world
      = Except.ok { world with
          user := f world.user
          trace := world.trace ++ [Event.send false, Event.call none, Event.send true] } := by
  simp [MomentaryButton, userFunc, World.emit, bind, Except.bind]

/-- C3. One click on a `ToggleButton` with a non-nil action, in state `s` with
no synchronized closure waiting: the action is invoked once, with `!s`; the
cell still holds `s` when the handler is done, and once the UI thread has run
the synchronized closure it holds `!s` if the action returned true and `s` if
it returned false. -/
theorem ToggleButton_click {υ : Type} (w : Nat) (btnText : String) (f : Bool → υ → Bool × υ)
    (world : World υ) (hp : world.pending = []) :
    ∃ world1, (ToggleButton w btnText (userBoolFunc f)).OnClicked world = Except.ok world1
      ∧ world1.trace = world.trace
          ++ [Event.send false, Event.call (some (!world.state)), Event.send true]
      ∧ world1.user = (f (!world.state) world.user).2
      ∧ world1.state = world.state
      ∧ world1.pending = (if (f (!world.state) world.user).1 then [SyncOp.flipState] else [])
      ∧ world1.runSync.state
          = (if (f (!world.state) world.user).1 then !world.state else world.state) := by
  cases hr : (f (!world.state) world.user).1 <;>
    simp [ToggleButton, userBoolFunc, World.emit, World.synchronize, World.runSync,
      World.runOp, bind, Except.bind, hr, hp]

theorem ToggleButton_click_witness :
    ∃ world1, (ToggleButton 64 "Go" (userBoolFunc (fun b (n : Nat) => (b, n + 1)))).OnClicked
        { user := 0, trace := [], state := false, labelText := "", editText := "",
          editValue := F64.ofInt 0, pending := [] } = Except.ok world1
      ∧ world1.trace = [] ++ [Event.send false, Event.call (some (!false)), Event.send true]
      ∧ world1.user = 1
      ∧ world1.state = false
      ∧ world1.pending = (if (!false) = true then [SyncOp.flipState] else [])
      ∧ world1.runSync.state = (if (!false) = true then !false else false) :=
  ToggleButton_click 64 "Go" (fun b (n : Nat) => (b, n + 1))
    { user := 0, trace := [], state := false, labelText := "", editText := "",
      editValue := F64.ofInt 0, pending := [] } rfl

theorem LabeledToggle_clickSync {υ : Type} (w : Nat) (btnText : String) (m : Bool → String)
    (s0 : Bool) (f : Bool → υ → Bool × υ) (world : World υ) (hp : world.pending = []) :
    ∃ world1, (LabeledToggleButton w btnText m s0 (userBoolFunc f)).clickSync world
        = Except.ok world1
      ∧ world1.pending = []
      ∧ world1.user = (f (!world.state) world.user).2
      ∧ world1.state = (if (f (!world.state) world.user).1 then !world.state else world.state)
      ∧ world1.labelText
          = (if (f (!world.state) world.user).1 then m (!world.state) else world.labelText) := by
  cases hr : (f (!world.state) world.user).1 <;>
    simp [LabeledToggle.clickSync, Composite.click, Composite.button, LabeledToggleButton,
      ToggleButton, userBoolFunc, BoolFunc.call, World.emit, World.synchronize, World.runSync,
      World.runOp, bind, Except.bind, Except.map, hr, hp]

theorem LabeledToggle_clicks_inv {υ : Type} (w : Nat) (btnText : String) (m : Bool → String)
    (s0 : Bool) (f : Bool → υ → Bool × υ) (u : υ) (n : Nat) :
    ∃ wn, (LabeledToggleButton w btnText m s0 (userBoolFunc f)).clicks n
          ((LabeledToggleButton w btnText m s0 (userBoolFunc f)).start u) = Except.ok wn
      ∧ wn.pending = [] ∧ wn.labelText = m wn.state := by
  induction n with
  | zero =>
      refine ⟨_, rfl, rfl, ?_⟩
      simp [LabeledToggle.start, LabeledToggleButton, Composite.labelText]
  | succ k ih =>
      obtain ⟨wk, hk, hpk, hlk⟩ := ih
      obtain ⟨w1, h1, hp1, _, hs1, hl1⟩ := LabeledToggle_clickSync w btnText m s0 f wk hpk
      refine ⟨w1, ?_, hp1, ?_⟩
      · simp only [LabeledToggle.clicks, hk, bind, Except.bind]
        exact h1
      · rw [hl1, hs1]
        split
        · rfl
        · exact hlk

/-- C10. A `LabeledToggleButton` with a non-nil action that returns, initial
state `s0` and strings `m`: the label starts as `m[s0]`; after any number `n` of
clicks, each with its synchronized closures run before the next, the label
shows `m[State]`; and the next click sets `State` to its negation `b` and the
label to `m[b]` if the action returns true, and changes neither if it returns
false. -/
theorem LabeledToggleButton_label_tracks_state {υ : Type} (w : Nat) (btnText : String)
    (m : Bool → String) (s0 : Bool) (f : Bool → υ → Bool × υ) (u : υ) (n : Nat) :
    ∃ wn wn1,
      (LabeledToggleButton w btnText m s0 (userBoolFunc f)).clicks n
          ((LabeledToggleButton w btnText m s0 (userBoolFunc f)).start u) = Except.ok wn
      ∧ (LabeledToggleButton w btnText m s0 (userBoolFunc f)).clicks (n + 1)
          ((LabeledToggleButton w btnText m s0 (userBoolFunc f)).start u) = Except.ok wn1
      ∧ ((LabeledToggleButton w btnText m s0 (userBoolFunc f)).start u).state = s0
      ∧ ((LabeledToggleButton w btnText m s0 (userBoolFunc f)).start u).labelText = m s0
      ∧ wn.labelText = m wn.state
      ∧ wn1.labelText = m wn1.state
      ∧ wn1.state = (if (f (!wn.state) wn.user).1 then !wn.state else wn.state)
      ∧ wn1.labelText = (if (f (!wn.state) wn.user).1 then m (!wn.state) else wn.labelText) := by
  obtain ⟨wn, hn, hpn, hln⟩ := LabeledToggle_clicks_inv w btnText m s0 f u n
  obtain ⟨w1, h1, _, _, hs1, hl1⟩ := LabeledToggle_clickSync w btnText m s0 f wn hpn
  obtain ⟨w1b, h1b, _, hl1b⟩ := LabeledToggle_clicks_inv w btnText m s0 f u (n + 1)
  have hstep : (LabeledToggleButton w btnText m s0 (userBoolFunc f)).clicks (n + 1)
      ((LabeledToggleButton w btnText m s0 (userBoolFunc f)).start u) = Except.ok w1 := by
    simp only [LabeledToggle.clicks, hn, bind, Except.bind]
    exact h1
  have heq : w1b = w1 := by
    rw [hstep] at h1b
    exact (Except.ok.inj h1b).symm
  subst heq
  refine ⟨wn, w1b, hn, hstep, rfl, ?_, hln, hl1b, hs1, hl1⟩
  simp [LabeledToggle.start, LabeledToggleButton, Composite.labelText]

/-- C8, at `LabeledToggleButton`. Built with a nil action, a click goes through
the nil check of `ToggleButton` (the closure it is given is not nil) and that
closure calls the nil action: the click panics. -/
theorem LabeledToggleButton_nil_action_panics {υ : Type} (w : Nat) (btnText : String)
    (m : Bool → String) (s0 : Bool) (world : World υ) :
    (LabeledToggleButton w btnText m s0 none).composite.click world
      = Except.error Panic.nilFunc := by
  simp [Composite.click, Composite.button, LabeledToggleButton, ToggleButton, BoolFunc.call,
    bind, Except.bind]

/-- The other six factories guard the nil action: a click on a `MomentaryButton`
or `ToggleButton` built with nil does nothing at all, and a click on a setter
or getter row built with nil runs the guarded closure, which returns at once. -/
theorem nil_action_guarded {υ : Type} (w : Nat) (btnText unit initialvalue : String)
    (length digits decimals : Int) (world : World υ) :
    (MomentaryButton w btnText none).OnClicked world = Except.ok world
      ∧ (ToggleButton w btnText none).OnClicked world = Except.ok world
      ∧ (StringSetter w btnText initialvalue length none).click world
          = Except.ok { world with
              trace := world.trace ++ [Event.send false, Event.call none, Event.send true] }
      ∧ (StringGetter w btnText length none).click world
          = Except.ok { world with
              trace := world.trace ++ [Event.send false, Event.call none, Event.send true] }
      ∧ (FloatSetter w btnText unit digits decimals none).click world
          = Except.ok { world with
              trace := world.trace ++ [Event.send false, Event.call none, Event.send true] }
      ∧ (FloatGetter w btnText unit digits decimals none).click world
          = Except.ok { world with
              trace := world.trace ++ [Event.send false, Event.call none, Event.send true] } := by
  simp [Composite.click, Composite.button, MomentaryButton, ToggleButton, StringSetter,
    StringGetter, FloatSetter, FloatGetter, World.emit, bind, Except.bind]

/-! ## The control registry -/

/-- C5. For every list of names the registry made by `NewDisablers` has an
empty map: no name has a queue, and `Disable` and `Enable` of any name on it
send nothing and leave it as it is. -/
theorem NewDisablers_registers_nothing (names : List String) (name : String) :
    (NewDisablers names).chns = []
      ∧ (NewDisablers names).chns.lookup name = none
      ∧ (NewDisablers names).Disable name = some (NewDisablers names)
      ∧ (NewDisablers names).Enable name = some (NewDisablers names)
      ∧ NewDisablers ["a", "b"] = { chns := [] }
      ∧ (NewDisablers ["a", "b"]).Disable "a" = some { chns := [] }
      ∧ (NewDisablers ["a", "b"]).Enable "a" = some { chns := [] } := by
  have h : NewDisablers names = { chns := [] } := rfl
  rw [h]
  exact ⟨rfl, rfl, rfl, rfl, rfl, rfl, rfl⟩

/-- C6. `Enable(name)` and `Disable(name)` for a name that is not a key of the
map return, without a send, and leave the registry and every queue as they
were. -/
theorem Enable_Disable_missing (c : ControlDisablers) (name : String)
    (h : c.chns.lookup name = none) :
    c.Enable name = some c ∧ c.Disable name = some c := by
  simp [ControlDisablers.Enable, ControlDisablers.Disable, h]

theorem Enable_Disable_missing_witness :
    ({ chns := [("a", Chan.make 1), ("b", { cap := 1, buf := [true], recvd := [] })] }
        : ControlDisablers).Enable "missing"
        = some { chns := [("a", Chan.make 1), ("b", { cap := 1, buf := [true], recvd := [] })] }
      ∧ ({ chns := [("a", Chan.make 1), ("b", { cap := 1, buf := [true], recvd := [] })] }
        : ControlDisablers).Disable "missing"
        = some { chns := [("a", Chan.make 1), ("b", { cap := 1, buf := [true], recvd := [] })] } :=
  Enable_Disable_missing
    { chns := [("a", Chan.make 1), ("b", { cap := 1, buf := [true], recvd := [] })] }
    "missing" (by decide)

theorem sendEach_ready (v : Bool) (l : List (String × Chan))
    (h : ∀ e ∈ l, e.2.buf.length < e.2.cap) :
    sendEach v l = some (l.map (fun e => (e.1, e.2.push v))) := by
  induction l with
  | nil => rfl
  | cons e rest ih =>
      obtain ⟨k, chn⟩ := e
      have hk : chn.buf.length < chn.cap := h (k, chn) (List.mem_cons_self _ _)
      have hrest := ih (fun e he => h e (List.mem_cons_of_mem _ he))
      simp [sendEach, Chan.send, hk, hrest]

/-- C7. Every registered queue has capacity 1 and has been drained.
`DisableAll()` returns; the listeners drain; `EnableAll()`, visiting the queues
in any order, returns; the listeners drain.  Then every registered queue has
been sent exactly `false` and then `true`, and the last value its control has
seen is `true`. -/
theorem DisableAll_then_EnableAll (c : ControlDisablers)
    (reorder : List (String × Chan) → List (String × Chan))
    (hq : ∀ e ∈ c.chns, e.2.cap = 1 ∧ e.2.buf = [])
    (hre : ∀ l, (reorder l).Perm l) :
    ∃ c1 c2, c.DisableAll = some c1
      ∧ ControlDisablers.EnableAll { chns := reorder c1.drainAll.chns } = some c2
      ∧ c2.drainAll.chns.Perm
          (c.chns.map (fun e => (e.1, { e.2 with recvd := e.2.recvd ++ [false, true] })))
      ∧ (∀ e ∈ c2.drainAll.chns, e.2.buf = [] ∧ e.2.recvd.getLast? = some true) := by
  have h1 := sendEach_ready false c.chns (fun e he => by
    obtain ⟨hc, hb⟩ := hq e he
    simp [hc, hb])
  have hd1 : (ControlDisablers.drainAll { chns := c.chns.map (fun e => (e.1, e.2.push false)) }).chns
      = c.chns.map (fun e => (e.1, (e.2.push false).drain)) := by
    simp [ControlDisablers.drainAll, List.map_map, Function.comp_def]
  have hmid : ∀ e ∈ reorder (c.chns.map (fun e => (e.1, (e.2.push false).drain))),
      e.2.buf.length < e.2.cap := by
    intro e he
    have he2 := (hre _).subset he
    simp only [List.mem_map] at he2
    obtain ⟨e0, he0, rfl⟩ := he2
    obtain ⟨hc, _⟩ := hq e0 he0
    simp [Chan.drain, Chan.push, hc]
  have h2 := sendEach_ready true _ hmid
  have hperm : (ControlDisablers.drainAll (ControlDisablers.mk
        (List.map (fun e => (e.1, e.2.push true))
          (reorder (c.chns.map (fun e => (e.1, (e.2.push false).drain))))))).chns.Perm
      (c.chns.map (fun e => (e.1, { e.2 with recvd := e.2.recvd ++ [false, true] }))) := by
    simp only [ControlDisablers.drainAll, List.map_map]
    refine ((hre _).map _).trans ?_
    rw [List.map_map]
    apply List.Perm.of_eq
    apply List.map_congr_left
    intro e he
    obtain ⟨_, hb⟩ := hq e he
    simp [Chan.drain, Chan.push, hb]
  refine ⟨{ chns := c.chns.map (fun e => (e.1, e.2.push false)) },
    ControlDisablers.mk (List.map (fun e => (e.1, e.2.push true))
        (reorder (c.chns.map (fun e => (e.1, (e.2.push false).drain))))), ?_, ?_, hperm, ?_⟩
  · simp only [ControlDisablers.DisableAll, h1, Option.map_some']
  · rw [hd1]
    simp only [ControlDisablers.EnableAll, h2, Option.map_some']
  · intro e he
    have he2 := hperm.subset he
    simp only [List.mem_map] at he2
    obtain ⟨e0, he0, rfl⟩ := he2
    obtain ⟨_, hb⟩ := hq e0 he0
    simp [hb]

theorem DisableAll_then_EnableAll_witness :
    ∃ c1 c2,
      ({ chns := [("a", Chan.make 1), ("b", { cap := 1, buf := [], recvd := [true] })] }
          : ControlDisablers).DisableAll = some c1
      ∧ ControlDisablers.EnableAll { chns := List.reverse c1.drainAll.chns } = some c2
      ∧ c2.drainAll.chns.Perm
          (([("a", Chan.make 1), ("b", { cap := 1, buf := [], recvd := [true] })]
              : List (String × Chan)).map
            (fun e => (e.1, { e.2 with recvd := e.2.recvd ++ [false, true] })))
      ∧ (∀ e ∈ c2.drainAll.chns, e.2.buf = [] ∧ e.2.recvd.getLast? = some true) :=
  DisableAll_then_EnableAll
    { chns := [("a", Chan.make 1), ("b", { cap := 1, buf := [], recvd := [true] })] }
    List.reverse (by decide) (fun l => List.reverse_perm l)

end Labwidgets
